import Mathlib

/-!
Verification of `theia/io/write_bundler_files.cc` (TheiaSfM): the Bundler
export pipeline.  The C++ entities (`Reconstruction`, `View`, `Track`,
`Camera`, `CameraIntrinsicsPrior`) are shallowly embedded with rationals in
place of `double` and association lists (key ↦ value, unique keys in any
well-formed reconstruction) in place of `std::unordered_map`.  Iteration
order of `ViewIds()` / `TrackIds()` is the association-list order.
-/

namespace Theia

abbrev ViewId := Nat
abbrev TrackId := Nat

/-- A 2D pixel feature `(x, y)`. -/
abbrev Feature := ℚ × ℚ

/-- 3-vector with rational entries (embeds `Eigen::Vector3d`). -/
structure Vec3 where
  x : ℚ
  y : ℚ
  z : ℚ
deriving DecidableEq, Repr

/-- Homogeneous 4-vector (embeds `Eigen::Vector4d`, `Track::Point()`). -/
structure Vec4 where
  x : ℚ
  y : ℚ
  z : ℚ
  w : ℚ
deriving DecidableEq, Repr

/-- 3×3 matrix with rational entries (embeds `Eigen::Matrix3d`). -/
structure Mat3 where
  m00 : ℚ
  m01 : ℚ
  m02 : ℚ
  m10 : ℚ
  m11 : ℚ
  m12 : ℚ
  m20 : ℚ
  m21 : ℚ
  m22 : ℚ
deriving DecidableEq, Repr

def mat3Mul (a b : Mat3) : Mat3 where
  m00 := a.m00 * b.m00 + a.m01 * b.m10 + a.m02 * b.m20
  m01 := a.m00 * b.m01 + a.m01 * b.m11 + a.m02 * b.m21
  m02 := a.m00 * b.m02 + a.m01 * b.m12 + a.m02 * b.m22
  m10 := a.m10 * b.m00 + a.m11 * b.m10 + a.m12 * b.m20
  m11 := a.m10 * b.m01 + a.m11 * b.m11 + a.m12 * b.m21
  m12 := a.m10 * b.m02 + a.m11 * b.m12 + a.m12 * b.m22
  m20 := a.m20 * b.m00 + a.m21 * b.m10 + a.m22 * b.m20
  m21 := a.m20 * b.m01 + a.m21 * b.m11 + a.m22 * b.m21
  m22 := a.m20 * b.m02 + a.m21 * b.m12 + a.m22 * b.m22

def mat3MulVec (a : Mat3) (v : Vec3) : Vec3 where
  x := a.m00 * v.x + a.m01 * v.y + a.m02 * v.z
  y := a.m10 * v.x + a.m11 * v.y + a.m12 * v.z
  z := a.m20 * v.x + a.m21 * v.y + a.m22 * v.z

def vec3Neg (v : Vec3) : Vec3 := ⟨-v.x, -v.y, -v.z⟩

/-- `Eigen::Vector3d(a, b, c).asDiagonal()`. -/
def mat3Diag (a b c : ℚ) : Mat3 := ⟨a, 0, 0, 0, b, 0, 0, 0, c⟩

/-- `Vector4d::hnormalized()`: divide through by the homogeneous component. -/
def Vec4.hnormalized (p : Vec4) : Vec3 := ⟨p.x / p.w, p.y / p.w, p.z / p.w⟩

/-- One optional prior value of `CameraIntrinsicsPrior` (`focal_length`). -/
structure Prior where
  is_set : Bool
  value : ℚ
deriving DecidableEq, Repr

/-- The intrinsic and extrinsic camera parameters this exporter reads. -/
structure Camera where
  focalLength : ℚ
  radialDistortion1 : ℚ
  radialDistortion2 : ℚ
  principalPointX : ℚ
  principalPointY : ℚ
  /-- `Camera::GetOrientationAsRotationMatrix()`. -/
  orientation : Mat3
  /-- `Camera::GetPosition()`: the camera centre in world coordinates. -/
  position : Vec3
deriving DecidableEq, Repr

structure View where
  name : String
  isEstimated : Bool
  camera : Camera
  /-- `CameraIntrinsicsPrior().focal_length`. -/
  focalLengthPrior : Prior
  /-- `View::GetFeature`: the 2D observation of each track this view sees. -/
  features : List (TrackId × Feature)
deriving DecidableEq, Repr

structure Track where
  point : Vec4
  isEstimated : Bool
  /-- `Track::ViewIds()`: the observing views; `NumViews()` is its length. -/
  viewIds : List ViewId
deriving DecidableEq, Repr

structure Reconstruction where
  views : List (ViewId × View)
  tracks : List (TrackId × Track)
deriving DecidableEq, Repr

/-- Association-list lookup (embeds `std::unordered_map::find` /
`Reconstruction::View` / `Reconstruction::Track`, which return a null
pointer when the key is absent). -/
def alookup (k : Nat) : List (Nat × α) → Option α
  | [] => none
  | (k', v) :: rest => if k' = k then some v else alookup k rest

def Reconstruction.view (r : Reconstruction) (vid : ViewId) : Option View :=
  alookup vid r.views

def Reconstruction.track (r : Reconstruction) (tid : TrackId) : Option Track :=
  alookup tid r.tracks

/-- Well-formedness of the embedding: `std::unordered_map` keys are unique. -/
def Reconstruction.wf (r : Reconstruction) : Prop :=
  (r.views.map Prod.fst).Nodup ∧ (r.tracks.map Prod.fst).Nodup

instance (r : Reconstruction) : Decidable r.wf := by
  unfold Reconstruction.wf; infer_instance

/-- Modelled from the spec: `Reconstruction::RemoveView` /
`Reconstruction::RemoveTrack` are declared in `theia/sfm/reconstruction.h`,
whose implementation is not part of this repository slice.  The spec fixes
their behaviour for this exporter: removal erases the entry for the given id
from the id ↦ entity map, and "Removing a view does not need to also strip
it from tracks' observation sets" — a track may still list a removed view,
and the observation-count check uses the count before view removal. -/
def Reconstruction.removeEntry (entries : List (Nat × α)) (k : Nat) :
    List (Nat × α) :=
  entries.filter (fun p => !(p.1 == k))

/-- One iteration of `CreateEstimatedSubreconstruction`'s removal loops:
look the entry for key `k` up (`continue` when the lookup comes back null)
and remove it when it fails the keep-predicate `pred`. -/
def removeStep (pred : α → Bool) (acc : List (Nat × α)) (k : Nat) :
    List (Nat × α) :=
  match alookup k acc with
  | none => acc
  | some v => if !pred v then Reconstruction.removeEntry acc k else acc

/-- One removal pass of `CreateEstimatedSubreconstruction`: snapshot the key
list, then run `removeStep` for each key.  `RemoveView`/`RemoveTrack` on one
entity kind leaves the other kind's map untouched (see
`Reconstruction.removeEntry`), so each of the source's two loops is this
pass over the corresponding association list. -/
def removePass (pred : α → Bool) (entries : List (Nat × α)) : List (Nat × α) :=
  (entries.map Prod.fst).foldl (removeStep pred) entries

/-- `CreateEstimatedSubreconstruction`: copy the input, remove every view
whose `IsEstimated()` is false, then remove every track with
`!track->IsEstimated() || track->NumViews() < 2` (keep means estimated and
at least two observers). -/
def createEstimatedSubreconstruction (input : Reconstruction) :
    Reconstruction where
  views := removePass (fun v => v.isEstimated) input.views
  tracks :=
    removePass (fun t => t.isEstimated && !(decide (t.viewIds.length < 2)))
      input.tracks

/-! ### The writers

Each `WriteXFile` function opens an `std::ofstream` and returns `false`
when the open fails; otherwise it streams text and returns `true`.  The
stream's text is modelled structurally (one entry per emitted line or
block).  A dereference of a null pointer, or a `FindOrDie` on an absent
key, aborts the process instead of returning: outcome `crash`. -/

inductive WriteOutcome (α : Type) where
  | ok (out : α)
  | openFail
  | crash
deriving DecidableEq, Repr

/-- `Option`-valued `mapM` by structural recursion: the first failing
element makes the whole traversal fail. -/
def optMapM (f : α → Option β) : List α → Option (List β)
  | [] => some []
  | a :: l => do
    let b ← f a
    let bs ← optMapM f l
    pure (b :: bs)

/-- Rendering of a rational standing in for C++ `operator<<` on `double`. -/
def ratStr (q : ℚ) : String := toString q

/-- The one line `WriteListsFile` emits per view: the view's name and, when
the focal-length prior is set, `" 0 "` followed by the prior's value. -/
def listLine (v : View) : String :=
  v.name ++
    (if v.focalLengthPrior.is_set then " 0 " ++ ratStr v.focalLengthPrior.value
     else "")

/-- The body of `WriteListsFile`'s loop: iterate `ViewIds()`, look each view
up (`reconstruction.View(view_ids[i])`, dereferenced with no null check) and
emit its line. -/
def listsLines (r : Reconstruction) : Option (List String) :=
  optMapM (fun vid => (r.view vid).map listLine) (r.views.map Prod.fst)

/-- `WriteListsFile`: `canOpen` tells whether the `std::ofstream` at the
target path opens; on failure the function logs and returns `false`. -/
def writeListsFile (canOpen : Bool) (r : Reconstruction) :
    WriteOutcome (List String) :=
  if !canOpen then .openFail
  else
    match listsLines r with
    | none => .crash
    | some lines => .ok lines

/-- `theia_to_bundler = Eigen::Vector3d(1.0, -1.0, -1.0).asDiagonal()`. -/
def theiaToBundler : Mat3 := mat3Diag 1 (-1) (-1)

/-- The bundle file's magic first line. -/
def bundlerMagic : String := "# Bundle file v0.3"

/-- One camera block of the bundle file: intrinsics line, converted 3×3
rotation (three lines), converted translation (one line). -/
structure CameraBlock where
  focalLength : ℚ
  radial1 : ℚ
  radial2 : ℚ
  rotation : Mat3
  translation : Vec3
deriving DecidableEq, Repr

/-- The camera block emitted per view: `rotation = theia_to_bundler * R`,
`translation = theia_to_bundler * (-R * C)` with `R` the unconverted
`GetOrientationAsRotationMatrix()` and `C` the world position. -/
def cameraBlockOf (c : Camera) : CameraBlock where
  focalLength := c.focalLength
  radial1 := c.radialDistortion1
  radial2 := c.radialDistortion2
  rotation := mat3Mul theiaToBundler c.orientation
  translation :=
    mat3MulVec theiaToBundler (vec3Neg (mat3MulVec c.orientation c.position))

/-- One observation tuple of a point block's observation line:
`" " << index << " 0 " << adjusted_feature`. -/
structure Observation where
  viewIndex : Nat
  /-- Always printed as the literal `0`: SIFT keyfiles are not stored. -/
  keypointIndex : Nat
  fx : ℚ
  fy : ℚ
deriving DecidableEq, Repr

/-- One point block: dehomogenized position line, placeholder color line,
observation line starting with the observer count. -/
structure PointBlock where
  position : Vec3
  colorLine : String
  /-- The count printed first on the observation line:
  `views_in_track.size()`. -/
  numObservations : Nat
  observations : List Observation
deriving DecidableEq, Repr

/-- The whole bundle file: magic line, `NumViews() " " NumTracks()` header,
camera blocks, point blocks. -/
structure BundleOutput where
  magic : String
  numViews : Nat
  numTracks : Nat
  cameras : List CameraBlock
  points : List PointBlock
deriving DecidableEq, Repr

/-- The header lines of a `BundleOutput` as literal text. -/
def bundleHeaderLines (b : BundleOutput) : List String :=
  [b.magic, toString b.numViews ++ " " ++ toString b.numTracks]

/-- `view_id_to_index[view_ids[i]] = i` for `i = n, n+1, ...`: the index
table built by the camera-writing loop. -/
def tableFrom (n : Nat) : List ViewId → List (ViewId × Nat)
  | [] => []
  | vid :: ids => (vid, n) :: tableFrom (n + 1) ids

/-- The `view_id_to_index` table of `WriteBundleFile`, keyed by the
positions `0, 1, ...` of `reconstruction.ViewIds()`. -/
def viewIdToIndex (r : Reconstruction) : List (ViewId × Nat) :=
  tableFrom 0 (r.views.map Prod.fst)

/-- The camera-writing loop: for each id of `ViewIds()` in order, dereference
`reconstruction.View(view_ids[i])` (no null check) and emit its block. -/
def cameraPass (r : Reconstruction) : Option (List CameraBlock) :=
  optMapM (fun vid => (r.view vid).map (fun v => cameraBlockOf v.camera))
    (r.views.map Prod.fst)

/-- The feature adjustment `adjusted_feature` of the point loop: re-origin
at the principal point and flip the vertical axis. -/
def adjustFeature (cam : Camera) (f : Feature) : ℚ × ℚ :=
  (f.1 - cam.principalPointX, -(f.2 - cam.principalPointY))

/-- One observation tuple of the point loop.  `FindOrDie(view_id_to_index,
view_id)` (from `theia/util/map_util.h`, not part of this repository slice:
per its contract it returns the mapped value or CHECK-aborts on an absent
key), then `reconstruction.View(view_id)` and `view->GetFeature(track_id)`,
both dereferenced with no null check — each absence aborts (`none`). -/
def observationOf (r : Reconstruction) (table : List (ViewId × Nat))
    (tid : TrackId) (vid : ViewId) : Option Observation := do
  let index ← alookup vid table
  let view ← r.view vid
  let f ← alookup tid view.features
  pure
    { viewIndex := index
      keypointIndex := 0
      fx := (adjustFeature view.camera f).1
      fy := (adjustFeature view.camera f).2 }

/-- One point block of the point loop: dehomogenized position, the fixed
color line, the observer count, then one tuple per id of
`track->ViewIds()`. -/
def pointBlockOf (r : Reconstruction) (table : List (ViewId × Nat))
    (tid : TrackId) (t : Track) : Option PointBlock := do
  let obs ← optMapM (observationOf r table tid) t.viewIds
  pure
    { position := t.point.hnormalized
      colorLine := "255 255 255"
      numObservations := t.viewIds.length
      observations := obs }

/-- The point-writing loop: for each id of `TrackIds()` in order, look the
track up (`reconstruction.Track(track_id)`, dereferenced with no null
check) and emit its block. -/
def pointPass (r : Reconstruction) (table : List (ViewId × Nat)) :
    Option (List PointBlock) :=
  optMapM (fun tid => (r.track tid).bind (pointBlockOf r table tid))
    (r.tracks.map Prod.fst)

/-- `WriteBundleFile`: open the stream (`false` on failure), write the magic
and count header, the camera section (building `view_id_to_index`), then
the point section reusing that table. -/
def writeBundleFile (canOpen : Bool) (r : Reconstruction) :
    WriteOutcome BundleOutput :=
  if !canOpen then .openFail
  else
    match cameraPass r with
    | none => .crash
    | some cams =>
      match pointPass r (viewIdToIndex r) with
      | none => .crash
      | some pts =>
        .ok
          { magic := bundlerMagic
            numViews := r.views.length
            numTracks := r.tracks.length
            cameras := cams
            points := pts }

/-- `WriteBundlerFiles`: filter to the estimated subreconstruction, write
the lists file, and only if that succeeded write the bundle file. -/
def writeBundlerFiles (canOpenLists canOpenBundle : Bool)
    (r : Reconstruction) : WriteOutcome (List String × BundleOutput) :=
  let sub := createEstimatedSubreconstruction r
  match writeListsFile canOpenLists sub with
  | .openFail => .openFail
  | .crash => .crash
  | .ok lines =>
    match writeBundleFile canOpenBundle sub with
    | .openFail => .openFail
    | .crash => .crash
    | .ok b => .ok (lines, b)

/-! ### Concrete test fixtures -/

/-- A camera with identity orientation at the world origin. -/
def exCam : Camera where
  focalLength := 1
  radialDistortion1 := 0
  radialDistortion2 := 0
  principalPointX := 0
  principalPointY := 0
  orientation := ⟨1, 0, 0, 0, 1, 0, 0, 0, 1⟩
  position := ⟨0, 0, 0⟩

/-- An estimated view with a set focal-length prior, observing track 10. -/
def exViewA : View where
  name := "a.jpg"
  isEstimated := true
  camera := exCam
  focalLengthPrior := ⟨true, 1500⟩
  features := [(10, (3, 4))]

/-- An unestimated view that also observes track 10. -/
def exViewB : View where
  name := "b.jpg"
  isEstimated := false
  camera := exCam
  focalLengthPrior := ⟨false, 0⟩
  features := [(10, (5, 6))]

/-- An estimated track observed by views 1 and 2. -/
def exTrack : Track where
  point := ⟨1, 2, 3, 1⟩
  isEstimated := true
  viewIds := [1, 2]

/-- Two views, one unestimated, one estimated track observed by both: the
track survives filtering (it is estimated with 2 observers) while view 2
does not. -/
def exR : Reconstruction := ⟨[(1, exViewA), (2, exViewB)], [(10, exTrack)]⟩

/-- `exViewB` with its estimated flag turned on. -/
def exViewB2 : View := { exViewB with isEstimated := true }

/-- Both views estimated: filtering keeps everything. -/
def exGood : Reconstruction := ⟨[(1, exViewA), (2, exViewB2)], [(10, exTrack)]⟩

/-- The camera block both example cameras produce. -/
def exCamBlock : CameraBlock :=
  ⟨1, 0, 0, ⟨1, 0, 0, 0, -1, 0, 0, 0, -1⟩, ⟨0, 0, 0⟩⟩

/-- The bundle output of `exGood`. -/
def exGoodBundle : BundleOutput where
  magic := bundlerMagic
  numViews := 2
  numTracks := 1
  cameras := [exCamBlock, exCamBlock]
  points :=
    [{ position := ⟨1, 2, 3⟩
       colorLine := "255 255 255"
       numObservations := 2
       observations := [⟨0, 0, 3, -4⟩, ⟨1, 0, 5, -6⟩] }]

/-- The bundle output of the empty reconstruction. -/
def emptyBundle : BundleOutput :=
  ⟨bundlerMagic, 0, 0, [], []⟩

/-! ### Helper lemmas: association-list lookup -/

theorem alookup_eq_none {α : Type} {l : List (Nat × α)} {k : Nat} :
    alookup k l = none ↔ k ∉ l.map Prod.fst := by
  induction l with
  | nil => simp [alookup]
  | cons p rest ih =>
    obtain ⟨k', v⟩ := p
    by_cases h : k' = k
    · subst h
      simp [alookup]
    · simp [alookup, h, ih, Ne.symm h]

theorem alookup_mem {α : Type} {l : List (Nat × α)} {k : Nat} {v : α}
    (hnd : (l.map Prod.fst).Nodup) (hm : (k, v) ∈ l) : alookup k l = some v := by
  induction l with
  | nil => simp at hm
  | cons p rest ih =>
    obtain ⟨k', v'⟩ := p
    simp [List.nodup_cons] at hnd
    rcases List.mem_cons.mp hm with hm | hm
    · obtain ⟨rfl, rfl⟩ := Prod.mk.injEq .. ▸ hm
      simp [alookup]
    · by_cases h : k' = k
      · subst h
        exact absurd hm (hnd.1 v)
      · simpa [alookup, h] using ih hnd.2 hm

theorem alookup_mem_keys {α : Type} {l : List (Nat × α)} {k : Nat}
    (h : k ∈ l.map Prod.fst) : ∃ v, alookup k l = some v ∧ (k, v) ∈ l := by
  induction l with
  | nil => simp at h
  | cons p rest ih =>
    obtain ⟨k', v'⟩ := p
    by_cases hk : k' = k
    · subst hk
      exact ⟨v', by simp [alookup], List.mem_cons_self ..⟩
    · simp [Ne.symm hk] at h
      obtain ⟨v0, hm0⟩ := h
      obtain ⟨v, hv, hm⟩ := ih (List.mem_map_of_mem Prod.fst hm0)
      exact ⟨v, by simp [alookup, hk, hv], List.mem_cons_of_mem _ hm⟩

/-! ### Helper lemmas: `optMapM` -/

theorem optMapM_congr {α β : Type} {f g : α → Option β} {l : List α}
    (h : ∀ a ∈ l, f a = g a) : optMapM f l = optMapM g l := by
  induction l with
  | nil => rfl
  | cons a l ih =>
    simp only [optMapM, h a (List.mem_cons_self ..),
      ih (fun a ha => h a (List.mem_cons_of_mem _ ha))]

theorem optMapM_eq_some_iff {α β : Type} {f : α → Option β} {l : List α}
    {ys : List β} :
    optMapM f l = some ys ↔ List.Forall₂ (fun a b => f a = some b) l ys := by
  induction l generalizing ys with
  | nil =>
    cases ys <;> simp [optMapM]
  | cons a l ih =>
    cases hfa : f a with
    | none =>
      simp only [optMapM, hfa, Option.none_bind]
      constructor
      · intro h
        exact absurd h (by simp)
      · intro h
        cases h with
        | cons h₁ _ => simp [hfa] at h₁
    | some b =>
      cases ys with
      | nil =>
        simp only [optMapM, hfa, Option.some_bind]
        constructor
        · intro h
          cases hrec : optMapM f l <;> simp [hrec] at h
        · intro h
          cases h
      | cons y ys' =>
        simp only [optMapM, hfa, Option.some_bind, List.forall₂_cons, hfa]
        constructor
        · intro h
          cases hrec : optMapM f l <;> simp [hrec] at h
          exact ⟨by rw [h.1], ih.mp (by rw [hrec, h.2])⟩
        · rintro ⟨h₁, h₂⟩
          rw [ih.mpr h₂]
          simp at h₁
          simp [h₁]

theorem optMapM_eq_none_of_mem {α β : Type} {f : α → Option β} {l : List α}
    {a : α} (ha : a ∈ l) (hfa : f a = none) : optMapM f l = none := by
  induction l with
  | nil => simp at ha
  | cons x l ih =>
    rcases List.mem_cons.mp ha with rfl | ha
    · simp [optMapM, hfa]
    · cases hfx : f x
      · simp [optMapM, hfx]
      · simp [optMapM, hfx, ih ha]

theorem optMapM_isSome {α β : Type} {f : α → Option β} {l : List α}
    (h : ∀ a ∈ l, ∃ b, f a = some b) : ∃ ys, optMapM f l = some ys := by
  induction l with
  | nil => exact ⟨[], rfl⟩
  | cons a l ih =>
    obtain ⟨b, hb⟩ := h a (List.mem_cons_self ..)
    obtain ⟨ys, hys⟩ := ih (fun a ha => h a (List.mem_cons_of_mem _ ha))
    exact ⟨b :: ys, by simp [optMapM, hb, hys]⟩

/-- Mapping a per-entry function over the looked-up values of an
association list's own keys succeeds and produces the entrywise map, when
keys are unique. -/
theorem optMapM_keys_of_nodup {α β : Type} {l : List (Nat × α)}
    (hnd : (l.map Prod.fst).Nodup) (f : α → β) :
    optMapM (fun k => (alookup k l).map f) (l.map Prod.fst) =
      some (l.map (fun p => f p.2)) := by
  induction l with
  | nil => rfl
  | cons p rest ih =>
    obtain ⟨a, v⟩ := p
    simp only [List.map_cons, List.nodup_cons] at hnd ⊢
    have hstep :
        optMapM (fun k => (alookup k ((a, v) :: rest)).map f)
            (rest.map Prod.fst) =
          optMapM (fun k => (alookup k rest).map f) (rest.map Prod.fst) := by
      refine optMapM_congr (fun k hk => ?_)
      have hne : a ≠ k := by
        rintro rfl
        exact hnd.1 hk
      simp [alookup, hne]
    simp only [optMapM, hstep, ih hnd.2]
    simp [alookup]

/-! ### Helper lemmas: the removal pass is a filter -/

theorem filter_key_ne_of_not_mem {α : Type} {l : List (Nat × α)} {a : Nat}
    (h : a ∉ l.map Prod.fst) : l.filter (fun p => !(p.1 == a)) = l := by
  refine List.filter_eq_self.mpr (fun p hp => ?_)
  simp only [Bool.not_eq_true', beq_eq_false_iff_ne]
  rintro rfl
  exact h (List.mem_map_of_mem Prod.fst hp)

theorem removeStep_cons {α : Type} {pred : α → Bool} {a : Nat} {v : α}
    {rest : List (Nat × α)} {k : Nat} (h : a ≠ k) :
    removeStep pred ((a, v) :: rest) k = (a, v) :: removeStep pred rest k := by
  unfold removeStep Reconstruction.removeEntry
  simp only [alookup, if_neg h]
  cases hl : alookup k rest with
  | none => rfl
  | some w =>
    by_cases hp : pred w
    · simp [hp]
    · simp [hp, List.filter_cons, h]

theorem foldl_removeStep_cons {α : Type} {pred : α → Bool} {a : Nat} {v : α}
    {rest : List (Nat × α)} {ks : List Nat} (h : ∀ k ∈ ks, a ≠ k) :
    ks.foldl (removeStep pred) ((a, v) :: rest) =
      (a, v) :: ks.foldl (removeStep pred) rest := by
  induction ks generalizing rest with
  | nil => rfl
  | cons k ks ih =>
    simp only [List.foldl_cons]
    rw [removeStep_cons (h k (List.mem_cons_self ..))]
    exact ih (fun k' hk' => h k' (List.mem_cons_of_mem _ hk'))

/-- With unique keys, `CreateEstimatedSubreconstruction`'s remove-loop over
a snapshot of the keys keeps exactly the entries satisfying the
keep-predicate. -/
theorem removePass_eq_filter {α : Type} {pred : α → Bool}
    {entries : List (Nat × α)} (hnd : (entries.map Prod.fst).Nodup) :
    removePass pred entries = entries.filter (fun p => pred p.2) := by
  induction entries with
  | nil => rfl
  | cons p rest ih =>
    obtain ⟨a, v⟩ := p
    simp only [List.map_cons, List.nodup_cons] at hnd
    obtain ⟨ha, hrest⟩ := hnd
    have hane : ∀ k ∈ rest.map Prod.fst, a ≠ k := by
      rintro k hk rfl
      exact ha hk
    unfold removePass
    simp only [List.map_cons, List.foldl_cons]
    have hstep : removeStep pred ((a, v) :: rest) a =
        if pred v then (a, v) :: rest else rest := by
      by_cases hp : pred v
      · simp [removeStep, Reconstruction.removeEntry, alookup, hp]
      · simp [removeStep, Reconstruction.removeEntry, alookup, hp,
          List.filter_cons, filter_key_ne_of_not_mem ha]
    rw [hstep]
    by_cases hp : pred v
    · rw [if_pos hp, foldl_removeStep_cons hane]
      have : rest.filter (fun p => pred p.2) =
          (rest.map Prod.fst).foldl (removeStep pred) rest :=
        (ih hrest).symm
      simp [List.filter_cons, hp, ← this]
    · rw [if_neg hp]
      have : removePass pred rest = rest.filter (fun p => pred p.2) :=
        ih hrest
      unfold removePass at this
      simp [List.filter_cons, hp, this]

/-! ### Helper lemmas: the view-index table -/

theorem tableFrom_lookup_none {ids : List ViewId} {vid : ViewId} {n : Nat} :
    alookup vid (tableFrom n ids) = none ↔ vid ∉ ids := by
  induction ids generalizing n with
  | nil => simp [tableFrom, alookup]
  | cons a l ih =>
    by_cases h : a = vid
    · subst h
      simp [tableFrom, alookup]
    · simp [tableFrom, alookup, h, ih, Ne.symm h]

theorem tableFrom_lookup_some {ids : List ViewId} (hnd : ids.Nodup)
    {vid : ViewId} {i n : Nat} :
    alookup vid (tableFrom n ids) = some i ↔
      ∃ j, ids[j]? = some vid ∧ i = n + j := by
  induction ids generalizing n with
  | nil => simp [tableFrom, alookup]
  | cons a l ih =>
    simp only [List.nodup_cons] at hnd
    by_cases h : a = vid
    · subst h
      constructor
      · intro hsome
        have hi : i = n := by simpa [tableFrom, alookup] using hsome.symm
        exact ⟨0, by simp, by omega⟩
      · rintro ⟨j, hj, rfl⟩
        cases j with
        | zero => simp [tableFrom, alookup]
        | succ j =>
          simp only [List.getElem?_cons_succ] at hj
          exact absurd (List.getElem?_mem hj) hnd.1
    · simp only [tableFrom, alookup, if_neg h, ih hnd.2]
      constructor
      · rintro ⟨j, hj, rfl⟩
        exact ⟨j + 1, by simpa using hj, by omega⟩
      · rintro ⟨j, hj, rfl⟩
        cases j with
        | zero => simp at hj; exact absurd hj h
        | succ j =>
          simp only [List.getElem?_cons_succ] at hj
          exact ⟨j, hj, by omega⟩

/-- Looking the `i`-th view id up in the table gives back `i`. -/
theorem viewIdToIndex_get {r : Reconstruction}
    (hnd : (r.views.map Prod.fst).Nodup) {i : Nat}
    (hi : i < (r.views.map Prod.fst).length) :
    alookup (r.views.map Prod.fst)[i] (viewIdToIndex r) = some i := by
  rw [viewIdToIndex, tableFrom_lookup_some hnd]
  exact ⟨i, by simp [List.getElem?_eq_getElem hi], by omega⟩

/-- The table maps each retained view id to an index below the view count. -/
theorem viewIdToIndex_lt {r : Reconstruction} {vid : ViewId} {i : Nat}
    (hnd : (r.views.map Prod.fst).Nodup)
    (h : alookup vid (viewIdToIndex r) = some i) :
    vid ∈ r.views.map Prod.fst ∧ i < r.views.length := by
  rw [viewIdToIndex, tableFrom_lookup_some hnd] at h
  obtain ⟨j, hj, rfl⟩ := h
  have hlt : j < (r.views.map Prod.fst).length := by
    by_contra hge
    rw [List.getElem?_eq_none (by omega)] at hj
    exact Option.noConfusion hj
  refine ⟨List.getElem?_mem hj, by simpa using hlt⟩

/-- The table is injective on indices: a printed index identifies one view. -/
theorem viewIdToIndex_inj {r : Reconstruction} {v₁ v₂ : ViewId} {i : Nat}
    (hnd : (r.views.map Prod.fst).Nodup)
    (h₁ : alookup v₁ (viewIdToIndex r) = some i)
    (h₂ : alookup v₂ (viewIdToIndex r) = some i) : v₁ = v₂ := by
  rw [viewIdToIndex, tableFrom_lookup_some hnd] at h₁ h₂
  obtain ⟨j₁, hj₁, hi₁⟩ := h₁
  obtain ⟨j₂, hj₂, hi₂⟩ := h₂
  have : j₁ = j₂ := by omega
  subst this
  rw [hj₁] at hj₂
  exact Option.some_inj.mp hj₂

/-- Every retained view id is in the table, at an index below the count. -/
theorem viewIdToIndex_mem {r : Reconstruction} {vid : ViewId}
    (hnd : (r.views.map Prod.fst).Nodup) (h : vid ∈ r.views.map Prod.fst) :
    ∃ i, i < r.views.length ∧ alookup vid (viewIdToIndex r) = some i := by
  obtain ⟨j, hj⟩ := List.getElem?_of_mem h
  refine ⟨j, ?_, ?_⟩
  · have hlt : j < (r.views.map Prod.fst).length := by
      by_contra hge
      rw [List.getElem?_eq_none (by omega)] at hj
      exact Option.noConfusion hj
    simpa using hlt
  · rw [viewIdToIndex, tableFrom_lookup_some hnd]
    exact ⟨j, hj, by omega⟩

/-! ### Helper lemmas: the passes of the bundle writer -/

theorem forall₂_imp_of_mem {α β : Type} {R S : α → β → Prop}
    {l₁ : List α} {l₂ : List β} (h : List.Forall₂ R l₁ l₂)
    (himp : ∀ a b, a ∈ l₁ → R a b → S a b) : List.Forall₂ S l₁ l₂ := by
  induction h with
  | nil => exact List.Forall₂.nil
  | cons hr _ ih =>
    exact List.Forall₂.cons (himp _ _ (List.mem_cons_self ..) hr)
      (ih (fun a b ha => himp a b (List.mem_cons_of_mem _ ha)))

theorem forall₂_mem_right {α β : Type} {R : α → β → Prop} {l₁ : List α}
    {l₂ : List β} (h : List.Forall₂ R l₁ l₂) {b : β} (hb : b ∈ l₂) :
    ∃ a ∈ l₁, R a b := by
  induction h with
  | nil => simp at hb
  | cons hr _ ih =>
    rcases List.mem_cons.mp hb with rfl | hb
    · exact ⟨_, List.mem_cons_self .., hr⟩
    · obtain ⟨a, ha, hrel⟩ := ih hb
      exact ⟨a, List.mem_cons_of_mem _ ha, hrel⟩

/-- With unique view keys, the camera loop emits one block per view, in
view-iteration order. -/
theorem cameraPass_eq {r : Reconstruction}
    (hnd : (r.views.map Prod.fst).Nodup) :
    cameraPass r = some (r.views.map (fun p => cameraBlockOf p.2.camera)) := by
  unfold cameraPass Reconstruction.view
  exact optMapM_keys_of_nodup hnd (fun v => cameraBlockOf v.camera)

/-- With unique view keys, the lists loop emits one line per view, in
view-iteration order. -/
theorem listsLines_eq {r : Reconstruction}
    (hnd : (r.views.map Prod.fst).Nodup) :
    listsLines r = some (r.views.map (fun p => listLine p.2)) := by
  unfold listsLines Reconstruction.view
  exact optMapM_keys_of_nodup hnd listLine

/-- The lists loop never fails: it only looks up the reconstruction's own
view ids. -/
theorem listsLines_isSome (r : Reconstruction) :
    ∃ ls, listsLines r = some ls := by
  unfold listsLines
  refine optMapM_isSome (fun vid hvid => ?_)
  obtain ⟨v, hv, _⟩ := alookup_mem_keys hvid
  exact ⟨listLine v, by simp [Reconstruction.view, hv]⟩

/-- A successful observation tuple read its printed index from the table. -/
theorem observationOf_table {r : Reconstruction} {table : List (ViewId × Nat)}
    {tid : TrackId} {vid : ViewId} {o : Observation}
    (h : observationOf r table tid vid = some o) :
    alookup vid table = some o.viewIndex ∧ o.keypointIndex = 0 := by
  cases h₁ : alookup vid table with
  | none => simp [observationOf, h₁] at h
  | some idx =>
    cases h₂ : r.view vid with
    | none => simp [observationOf, h₁, h₂] at h
    | some view =>
      cases h₃ : alookup tid view.features with
      | none => simp [observationOf, h₁, h₂, h₃] at h
      | some f =>
        simp only [observationOf, h₁, h₂, h₃, Option.bind_eq_bind,
          Option.some_bind, Option.pure_def, Option.some_inj] at h
        subst h
        refine ⟨?_, rfl⟩
        simp [h₁]

/-- A successful point block prints `views_in_track.size()` as the count and
one tuple per observing view id, in order. -/
theorem pointBlockOf_eq {r : Reconstruction} {table : List (ViewId × Nat)}
    {tid : TrackId} {t : Track} {pb : PointBlock}
    (h : pointBlockOf r table tid t = some pb) :
    pb.position = t.point.hnormalized ∧ pb.colorLine = "255 255 255" ∧
      pb.numObservations = t.viewIds.length ∧
      List.Forall₂ (fun vid o => observationOf r table tid vid = some o)
        t.viewIds pb.observations := by
  cases hobs : optMapM (observationOf r table tid) t.viewIds with
  | none => simp [pointBlockOf, hobs] at h
  | some obs =>
    simp only [pointBlockOf, hobs, Option.bind_eq_bind, Option.some_bind,
      Option.pure_def, Option.some_inj] at h
    subst h
    exact ⟨rfl, rfl, rfl, optMapM_eq_some_iff.mp hobs⟩

/-- With unique track keys, a successful point pass emits the blocks of the
reconstruction's tracks, in track-iteration order. -/
theorem pointPass_forall₂ {r : Reconstruction} {table : List (ViewId × Nat)}
    {pts : List PointBlock} (hnd : (r.tracks.map Prod.fst).Nodup)
    (h : pointPass r table = some pts) :
    List.Forall₂ (fun p pb => pointBlockOf r table p.1 p.2 = some pb)
      r.tracks pts := by
  unfold pointPass at h
  have h₂ := optMapM_eq_some_iff.mp h
  rw [List.forall₂_map_left_iff] at h₂
  refine forall₂_imp_of_mem h₂ (fun p pb hp hrel => ?_)
  have : r.track p.1 = some p.2 :=
    alookup_mem hnd (by simpa using hp)
  rwa [this, Option.some_bind] at hrel

/-- Inversion of a successful bundle write: both passes succeeded and the
output's fields are theirs. -/
theorem writeBundleFile_ok {r : Reconstruction} {b : BundleOutput}
    (h : writeBundleFile true r = .ok b) :
    cameraPass r = some b.cameras ∧
      pointPass r (viewIdToIndex r) = some b.points ∧
      b.magic = bundlerMagic ∧ b.numViews = r.views.length ∧
      b.numTracks = r.tracks.length := by
  cases hc : cameraPass r with
  | none => simp [writeBundleFile, hc] at h
  | some cams =>
    cases hpp : pointPass r (viewIdToIndex r) with
    | none => simp [writeBundleFile, hc, hpp] at h
    | some pts =>
      simp only [writeBundleFile, hc, hpp, Bool.not_true, Bool.false_eq_true,
        if_false, WriteOutcome.ok.injEq] at h
      subst h
      exact ⟨rfl, rfl, rfl, rfl, rfl⟩

/-! ### The claims -/

/-- C1 (counterexample): the claim says the bundle writer silently skips an
observation whose ViewId is absent from the view-index table and completes
normally.  On the filtered copy of `exR` — whose track 10 still lists the
filtered-out view 2 — the writer instead aborts (`FindOrDie`). -/
theorem claim1_absent_view_counterexample :
    writeBundleFile true (createEstimatedSubreconstruction exR) =
      .crash := by
  simp [writeBundleFile, cameraPass, pointPass, optMapM, alookup, exR, exViewA,
    exViewB, exCam, exTrack, Reconstruction.view, Reconstruction.track,
    createEstimatedSubreconstruction, removePass, removeStep,
    Reconstruction.removeEntry, cameraBlockOf, pointBlockOf, observationOf,
    adjustFeature, theiaToBundler, mat3Diag, mat3Mul, mat3MulVec, vec3Neg,
    Vec4.hnormalized, viewIdToIndex, tableFrom, bundlerMagic]

/-- C1 (amended): an observation whose ViewId is absent from the view-index
table is not skipped — the writer looks it up with `FindOrDie`, which
aborts: whenever some retained track lists an observer that is not among
the reconstruction's views, the bundle writer crashes instead of completing
normally. -/
theorem claim1_absent_view_aborts (r : Reconstruction) (hwf : r.wf)
    (h : ∃ p ∈ r.tracks, ∃ vid ∈ p.2.viewIds,
      vid ∉ r.views.map Prod.fst) :
    writeBundleFile true r = .crash := by
  obtain ⟨⟨tid, t⟩, hp, vid, hvid, hnot⟩ := h
  have htab : alookup vid (viewIdToIndex r) = none :=
    tableFrom_lookup_none.mpr hnot
  have hobs : observationOf r (viewIdToIndex r) tid vid = none := by
    simp [observationOf, htab]
  have hpb : pointBlockOf r (viewIdToIndex r) tid t = none := by
    simp [pointBlockOf, optMapM_eq_none_of_mem hvid hobs]
  have htr : r.track tid = some t := alookup_mem hwf.2 hp
  have hpp : pointPass r (viewIdToIndex r) = none := by
    refine optMapM_eq_none_of_mem (List.mem_map_of_mem Prod.fst hp) ?_
    simp [htr, hpb]
  cases hc : cameraPass r with
  | none => simp [writeBundleFile, hc]
  | some cams => simp [writeBundleFile, hc, hpp]

/-- C1 witness: the filtered copy of `exR` satisfies the amended claim's
hypotheses — track 10 is retained and still lists the removed view 2 — and
the writer crashes there. -/
theorem claim1_absent_view_aborts_witness :
    (createEstimatedSubreconstruction exR).wf ∧
      (∃ p ∈ (createEstimatedSubreconstruction exR).tracks,
        ∃ vid ∈ p.2.viewIds,
          vid ∉ (createEstimatedSubreconstruction exR).views.map Prod.fst) ∧
      writeBundleFile true (createEstimatedSubreconstruction exR) = .crash :=
  ⟨by decide, by decide,
    claim1_absent_view_aborts _ (by decide) (by decide)⟩

/-- C2: a track is retained by the subreconstruction filter iff its
estimated flag is set and its observer count in the original reconstruction
is at least 2; retained tracks are the original entries, observer sets
untouched, so eligibility never consults the pruned view set. -/
theorem claim2_track_filter_pre_removal (r : Reconstruction) (hwf : r.wf)
    (tid : TrackId) (t : Track) :
    (tid, t) ∈ (createEstimatedSubreconstruction r).tracks ↔
      (tid, t) ∈ r.tracks ∧ t.isEstimated = true ∧
        2 ≤ t.viewIds.length := by
  rw [show (createEstimatedSubreconstruction r).tracks =
      removePass (fun t => t.isEstimated && !(decide (t.viewIds.length < 2)))
        r.tracks from rfl,
    removePass_eq_filter hwf.2, List.mem_filter]
  simp only [Bool.and_eq_true, Bool.not_eq_true', decide_eq_false_iff_not]
  constructor
  · rintro ⟨hm, h1, h2⟩
    exact ⟨hm, h1, by omega⟩
  · rintro ⟨hm, h1, h2⟩
    exact ⟨hm, h1, by omega⟩

/-- C2 witness: `exTrack` (estimated, observed by views 1 and 2, view 2
unestimated) is retained in the filtered copy of `exR`. -/
theorem claim2_track_filter_pre_removal_witness :
    exR.wf ∧
      ((10, exTrack) ∈ (createEstimatedSubreconstruction exR).tracks ↔
        (10, exTrack) ∈ exR.tracks ∧ exTrack.isEstimated = true ∧
          2 ≤ exTrack.viewIds.length) :=
  ⟨by decide, claim2_track_filter_pre_removal exR (by decide) 10 exTrack⟩

/-- C3: filtering never increases the view or track counts, every retained
view is estimated, and every retained track is estimated with at least two
observers. -/
theorem claim3_filter_monotone_and_validated (r : Reconstruction)
    (hwf : r.wf) :
    (createEstimatedSubreconstruction r).views.length ≤ r.views.length ∧
      (createEstimatedSubreconstruction r).tracks.length ≤
        r.tracks.length ∧
      (∀ p ∈ (createEstimatedSubreconstruction r).views,
        p.2.isEstimated = true) ∧
      ∀ p ∈ (createEstimatedSubreconstruction r).tracks,
        p.2.isEstimated = true ∧ 2 ≤ p.2.viewIds.length := by
  obtain ⟨hv, ht⟩ := hwf
  have hv' :=
    @removePass_eq_filter View (fun v => v.isEstimated) r.views hv
  have ht' :=
    @removePass_eq_filter Track
      (fun t => t.isEstimated && !(decide (t.viewIds.length < 2))) r.tracks ht
  simp only [createEstimatedSubreconstruction, hv', ht']
  refine ⟨List.length_filter_le _ _, List.length_filter_le _ _, ?_, ?_⟩
  · intro p hp
    exact (List.mem_filter.mp hp).2
  · intro p hp
    have h2 := (List.mem_filter.mp hp).2
    simp only [Bool.and_eq_true, Bool.not_eq_true',
      decide_eq_false_iff_not] at h2
    exact ⟨h2.1, by omega⟩

/-- C3 witness: the filter's guarantees hold on `exR`. -/
theorem claim3_filter_monotone_and_validated_witness :
    exR.wf ∧
      ((createEstimatedSubreconstruction exR).views.length ≤
          exR.views.length ∧
        (createEstimatedSubreconstruction exR).tracks.length ≤
          exR.tracks.length ∧
        (∀ p ∈ (createEstimatedSubreconstruction exR).views,
          p.2.isEstimated = true) ∧
        ∀ p ∈ (createEstimatedSubreconstruction exR).tracks,
          p.2.isEstimated = true ∧ 2 ≤ p.2.viewIds.length) :=
  ⟨by decide, claim3_filter_monotone_and_validated exR (by decide)⟩

/-- C4: every emitted camera block carries the rotation
`theia_to_bundler * R` (sign flip applied on the left of the unconverted
rotation) and the translation `theia_to_bundler * (-R * C)`, where the
world-to-camera translation `-R * C` uses the unconverted rotation. -/
theorem claim4_extrinsics_conversion (r : Reconstruction) (b : BundleOutput)
    (hwf : r.wf) (h : writeBundleFile true r = .ok b) :
    b.cameras = r.views.map (fun p => cameraBlockOf p.2.camera) ∧
      ∀ c : Camera,
        (cameraBlockOf c).rotation = mat3Mul theiaToBundler c.orientation ∧
          (cameraBlockOf c).translation =
            mat3MulVec theiaToBundler
              (vec3Neg (mat3MulVec c.orientation c.position)) := by
  obtain ⟨hc, -, -⟩ := writeBundleFile_ok h
  have := (cameraPass_eq hwf.1).symm.trans hc
  exact ⟨(Option.some_inj.mp this).symm, fun c => ⟨rfl, rfl⟩⟩

/-- C4 witness: applied to `exGood` and its bundle output. -/
theorem claim4_extrinsics_conversion_witness :
    exGood.wf ∧ writeBundleFile true exGood = .ok exGoodBundle ∧
      (exGoodBundle.cameras =
          exGood.views.map (fun p => cameraBlockOf p.2.camera) ∧
        ∀ c : Camera,
          (cameraBlockOf c).rotation =
              mat3Mul theiaToBundler c.orientation ∧
            (cameraBlockOf c).translation =
              mat3MulVec theiaToBundler
                (vec3Neg (mat3MulVec c.orientation c.position))) :=
  ⟨by decide, by
    simp [writeBundleFile, cameraPass, pointPass, optMapM, alookup, exGood,
      exViewA, exViewB2, exViewB, exCam, exTrack, Reconstruction.view,
      Reconstruction.track, cameraBlockOf, pointBlockOf, observationOf,
      adjustFeature, theiaToBundler, mat3Diag, mat3Mul, mat3MulVec, vec3Neg,
      Vec4.hnormalized, viewIdToIndex, tableFrom, exGoodBundle, exCamBlock,
      bundlerMagic],
    claim4_extrinsics_conversion exGood exGoodBundle (by decide) (by
      simp [writeBundleFile, cameraPass, pointPass, optMapM, alookup, exGood,
        exViewA, exViewB2, exViewB, exCam, exTrack, Reconstruction.view,
        Reconstruction.track, cameraBlockOf, pointBlockOf, observationOf,
        adjustFeature, theiaToBundler, mat3Diag, mat3Mul, mat3MulVec, vec3Neg,
        Vec4.hnormalized, viewIdToIndex, tableFrom, exGoodBundle, exCamBlock,
        bundlerMagic])⟩

/-- C5: the emitted adjusted feature is `(x - cx, -(y - cy))`, and
`(ax, ay) ↦ (ax + cx, cy - ay)` recovers the original pixel coordinates. -/
theorem claim5_feature_adjustment_invertible (cam : Camera) (f : Feature) :
    adjustFeature cam f =
      (f.1 - cam.principalPointX, -(f.2 - cam.principalPointY)) ∧
      ((adjustFeature cam f).1 + cam.principalPointX,
        cam.principalPointY - (adjustFeature cam f).2) = f := by
  refine ⟨rfl, ?_⟩
  obtain ⟨x, y⟩ := f
  simp only [adjustFeature, Prod.mk.injEq]
  constructor <;> ring

/-- C6: the view-index table of the camera pass is a bijection between the
retained ViewIds and `[0, numRetainedViews)` — every retained id gets an
index below the view count, every assigned index identifies a unique
retained id, and the i-th view gets index i — and every view index inside
an emitted point block is the table's value for the observed ViewId. -/
theorem claim6_view_index_bijection (r : Reconstruction) (b : BundleOutput)
    (hwf : r.wf) (h : writeBundleFile true r = .ok b) :
    (∀ vid ∈ r.views.map Prod.fst,
        ∃ i, i < r.views.length ∧ alookup vid (viewIdToIndex r) = some i) ∧
      (∀ vid i, alookup vid (viewIdToIndex r) = some i →
        vid ∈ r.views.map Prod.fst ∧ i < r.views.length) ∧
      (∀ i, (hi : i < (r.views.map Prod.fst).length) →
        alookup ((r.views.map Prod.fst).get ⟨i, hi⟩) (viewIdToIndex r) =
          some i) ∧
      (∀ v₁ v₂ i, alookup v₁ (viewIdToIndex r) = some i →
        alookup v₂ (viewIdToIndex r) = some i → v₁ = v₂) ∧
      List.Forall₂
        (fun (p : TrackId × Track) (pb : PointBlock) =>
          List.Forall₂
            (fun vid (o : Observation) =>
              alookup vid (viewIdToIndex r) = some o.viewIndex)
            p.2.viewIds pb.observations)
        r.tracks b.points := by
  obtain ⟨-, hpp, -, -, -⟩ := writeBundleFile_ok h
  refine ⟨fun vid hv => viewIdToIndex_mem hwf.1 hv,
    fun vid i hi => viewIdToIndex_lt hwf.1 hi,
    fun i hi => ?_,
    fun v₁ v₂ i h₁ h₂ => viewIdToIndex_inj hwf.1 h₁ h₂, ?_⟩
  · simpa [List.get_eq_getElem] using viewIdToIndex_get hwf.1 hi
  · refine List.Forall₂.imp ?_ (pointPass_forall₂ hwf.2 hpp)
    intro p pb hrel
    exact List.Forall₂.imp (fun vid o ho => (observationOf_table ho).1)
      (pointBlockOf_eq hrel).2.2.2

/-- C6 witness: applied to `exGood` and its bundle output. -/
theorem claim6_view_index_bijection_witness :
    exGood.wf ∧ writeBundleFile true exGood = .ok exGoodBundle ∧
      List.Forall₂
        (fun (p : TrackId × Track) (pb : PointBlock) =>
          List.Forall₂
            (fun vid (o : Observation) =>
              alookup vid (viewIdToIndex exGood) = some o.viewIndex)
            p.2.viewIds pb.observations)
        exGood.tracks exGoodBundle.points :=
  ⟨by decide, by
    simp [writeBundleFile, cameraPass, pointPass, optMapM, alookup, exGood,
      exViewA, exViewB2, exViewB, exCam, exTrack, Reconstruction.view,
      Reconstruction.track, cameraBlockOf, pointBlockOf, observationOf,
      adjustFeature, theiaToBundler, mat3Diag, mat3Mul, mat3MulVec, vec3Neg,
      Vec4.hnormalized, viewIdToIndex, tableFrom, exGoodBundle, exCamBlock,
      bundlerMagic],
    (claim6_view_index_bijection exGood exGoodBundle (by decide) (by
      simp [writeBundleFile, cameraPass, pointPass, optMapM, alookup, exGood,
        exViewA, exViewB2, exViewB, exCam, exTrack, Reconstruction.view,
        Reconstruction.track, cameraBlockOf, pointBlockOf, observationOf,
        adjustFeature, theiaToBundler, mat3Diag, mat3Mul, mat3MulVec, vec3Neg,
        Vec4.hnormalized, viewIdToIndex, tableFrom, exGoodBundle, exCamBlock,
        bundlerMagic])).2.2.2.2⟩

/-- C7: for every retained view, in iteration order, the list writer emits
exactly one line — the view's name, followed by `" 0 "` and the prior's
focal-length value exactly when that prior is set — and nothing else. -/
theorem claim7_lists_lines (r : Reconstruction)
    (hnd : (r.views.map Prod.fst).Nodup) :
    writeListsFile true r = .ok (r.views.map (fun p => listLine p.2)) ∧
      ∀ v : View,
        listLine v = v.name ++
          (if v.focalLengthPrior.is_set then
            " 0 " ++ ratStr v.focalLengthPrior.value
          else "") := by
  refine ⟨?_, fun v => rfl⟩
  simp [writeListsFile, listsLines_eq hnd]

/-- C7 witness: applied to `exGood` (one view with a set prior, one
without). -/
theorem claim7_lists_lines_witness :
    (exGood.views.map Prod.fst).Nodup ∧
      (writeListsFile true exGood =
          .ok (exGood.views.map (fun p => listLine p.2)) ∧
        ∀ v : View,
          listLine v = v.name ++
            (if v.focalLengthPrior.is_set then
              " 0 " ++ ratStr v.focalLengthPrior.value
            else "")) :=
  ⟨by decide, claim7_lists_lines exGood (by decide)⟩

/-- C8: each writer returns its open-failure signal exactly when its output
stream cannot be opened, and when the list write fails the orchestrator
reports failure without the bundle write's outcome entering at all. -/
theorem claim8_orchestrator_short_circuit (r : Reconstruction) :
    (∀ canOpen : Bool,
        writeListsFile canOpen r = .openFail ↔ canOpen = false) ∧
      (∀ canOpen : Bool,
        writeBundleFile canOpen r = .openFail ↔ canOpen = false) ∧
      ∀ cb cb' : Bool,
        writeBundlerFiles false cb r = .openFail ∧
          writeBundlerFiles false cb r = writeBundlerFiles false cb' r := by
  refine ⟨?_, ?_, ?_⟩
  · intro canOpen
    cases canOpen
    · simp [writeListsFile]
    · obtain ⟨ls, hls⟩ := listsLines_isSome r
      simp [writeListsFile, hls]
  · intro canOpen
    cases canOpen
    · simp [writeBundleFile]
    · cases hc : cameraPass r with
      | none => simp [writeBundleFile, hc]
      | some cams =>
        cases hpp : pointPass r (viewIdToIndex r) <;>
          simp [writeBundleFile, hc, hpp]
  · intro cb cb'
    exact ⟨rfl, rfl⟩

/-- C9: the empty reconstruction exports successfully, with an empty list
file and a bundle file holding only the magic line `# Bundle file v0.3` and
the header line `0 0`. -/
theorem claim9_empty_reconstruction :
    writeBundlerFiles true true ⟨[], []⟩ = .ok ([], emptyBundle) ∧
      bundleHeaderLines emptyBundle = ["# Bundle file v0.3", "0 0"] ∧
      emptyBundle.cameras = [] ∧ emptyBundle.points = [] :=
  ⟨by rfl, by decide, rfl, rfl⟩

/-- C10: in every emitted point block, the printed observation count equals
the number of observation tuples on the line — one `(index, 0, fx, fy)`
tuple per ViewId in the track's observer set, none dropped. -/
theorem claim10_observation_count_consistent (r : Reconstruction)
    (b : BundleOutput) (hwf : r.wf)
    (h : writeBundleFile true r = .ok b) :
    List.Forall₂
      (fun (p : TrackId × Track) (pb : PointBlock) =>
        pb.numObservations = p.2.viewIds.length ∧
          pb.observations.length = p.2.viewIds.length ∧
          ∀ o ∈ pb.observations, o.keypointIndex = 0)
      r.tracks b.points := by
  obtain ⟨-, hpp, -, -, -⟩ := writeBundleFile_ok h
  refine List.Forall₂.imp ?_ (pointPass_forall₂ hwf.2 hpp)
  intro p pb hrel
  obtain ⟨-, -, hnum, hobs⟩ := pointBlockOf_eq hrel
  refine ⟨hnum, (List.Forall₂.length_eq hobs).symm, ?_⟩
  intro o ho
  obtain ⟨vid, -, hrel'⟩ := forall₂_mem_right hobs ho
  exact (observationOf_table hrel').2

/-- C10 witness: applied to `exGood` and its bundle output. -/
theorem claim10_observation_count_consistent_witness :
    exGood.wf ∧ writeBundleFile true exGood = .ok exGoodBundle ∧
      List.Forall₂
        (fun (p : TrackId × Track) (pb : PointBlock) =>
          pb.numObservations = p.2.viewIds.length ∧
            pb.observations.length = p.2.viewIds.length ∧
            ∀ o ∈ pb.observations, o.keypointIndex = 0)
        exGood.tracks exGoodBundle.points :=
  ⟨by decide, by
    simp [writeBundleFile, cameraPass, pointPass, optMapM, alookup, exGood,
      exViewA, exViewB2, exViewB, exCam, exTrack, Reconstruction.view,
      Reconstruction.track, cameraBlockOf, pointBlockOf, observationOf,
      adjustFeature, theiaToBundler, mat3Diag, mat3Mul, mat3MulVec, vec3Neg,
      Vec4.hnormalized, viewIdToIndex, tableFrom, exGoodBundle, exCamBlock,
      bundlerMagic],
    claim10_observation_count_consistent exGood exGoodBundle (by decide) (by
      simp [writeBundleFile, cameraPass, pointPass, optMapM, alookup, exGood,
        exViewA, exViewB2, exViewB, exCam, exTrack, Reconstruction.view,
        Reconstruction.track, cameraBlockOf, pointBlockOf, observationOf,
        adjustFeature, theiaToBundler, mat3Diag, mat3Mul, mat3MulVec, vec3Neg,
        Vec4.hnormalized, viewIdToIndex, tableFrom, exGoodBundle, exCamBlock,
        bundlerMagic])⟩

end Theia
